import Mathlib

/-!
Verification development for the issuer-admin-dashboard backend.

The development shallowly embeds the event-projection core of the service:
the Redis-backed store (issuer record hashes plus three status index lists),
the three event handlers of `IssuerService` (`handleApplicationSubmitted`,
`handleIssuerApproved`, `handleIssuerRejected`), the query service
(`getIssuer`, `getIssuersByStatus`, `getAllIssuers`), the two progress
cursors (the backfill cursor and the polling-service cursor), and the
batched backfill / polling loops.  Redis hashes are modelled as records of
optional string fields (`HSET` merges fields, `HGETALL` on a missing key
yields the empty field set); Redis lists are Lean lists with `LPUSH`
prepending and `LREM key 0 v` removing every occurrence.
-/

namespace IssuerBackend

/-! ## JavaScript primitives used by the source -/

/-- JavaScript `String.prototype.toLowerCase()`: lowercase every character
(per-character simple mapping, which is what the addresses here exercise). -/
def jsToLower (s : String) : String :=
  ⟨s.data.map Char.toLower⟩

/-- Numeric value of a list of decimal digit characters, most significant first. -/
def digitsVal (l : List Char) : Nat :=
  l.foldl (fun acc c => acc * 10 + (c.toNat - 48)) 0

/-- Parse a maximal leading run of decimal digits, as `parseInt` does after
sign handling; no digits parse to `NaN`, modelled as `none`. -/
def parseDigits (cs : List Char) : Option Nat :=
  let d := cs.takeWhile Char.isDigit
  if d = [] then none else some (digitsVal d)

/-- JavaScript `parseInt(s, 10)`: skip leading whitespace, optional sign,
then a maximal run of decimal digits; `NaN` is modelled as `none`. -/
def jsParseInt (s : String) : Option Int :=
  match s.toList.dropWhile Char.isWhitespace with
  | [] => none
  | c :: rest =>
    if c = '-' then (parseDigits rest).map (fun n => -(n : Int))
    else if c = '+' then (parseDigits rest).map (fun n => (n : Int))
    else (parseDigits (c :: rest)).map (fun n => (n : Int))

/-- JavaScript `Number.prototype.toString()` on an integer, exactly the
`ToString Int` instance of the runtime. -/
def intToString : Int → String
  | Int.ofNat m => Nat.repr m
  | Int.negSucc m => "-" ++ Nat.repr (m + 1)

/-- JavaScript `Array.prototype.slice(start, stop)` for non-negative bounds
as used by `getAllIssuers` (`allIssuers.slice(offset, offset + limit)`). -/
def jsSlice {α : Type} (l : List α) (start stop : Int) : List α :=
  let s : Int := if start < 0 then max (l.length + start) 0 else start
  let e : Int := if stop < 0 then max (l.length + stop) 0 else stop
  ((l.drop s.toNat).take (e - s).toNat)

/-- Insert `x` into an already sorted list, after every element that may
stay before it; ties keep the earlier element first. -/
def insertSorted {α : Type} (le : α → α → Bool) (x : α) : List α → List α
  | [] => [x]
  | y :: ys => if le y x then y :: insertSorted le x ys else x :: y :: ys

/-- JavaScript `Array.prototype.sort(cmp)`: a stable sort with respect to
the boolean preorder `le a b` ("`cmp(a,b) <= 0`"), modelled as stable
insertion sort (stable sorting under a total preorder is unique). -/
def jsSort {α : Type} (le : α → α → Bool) (l : List α) : List α :=
  l.foldl (fun acc x => insertSorted le x acc) []

/-- Redis `LRANGE key start stop` (both bounds inclusive, negative indices
count from the end of the list). -/
def lrange {α : Type} (l : List α) (start stop : Int) : List α :=
  let s : Int := max (if start < 0 then l.length + start else start) 0
  let e : Int := if stop < 0 then l.length + stop else stop
  if e < s then [] else (l.drop s.toNat).take (e - s + 1).toNat

/-! ## Data model (`src/types/issuer.ts`) -/

/-- The Redis hash stored at `issuer:{address}`: every field is a string and
may be absent.  `requestedCategories` is stored JSON-encoded; the encoding is
kept at the decoded level since no operation inspects the JSON text itself. -/
structure RecordHash where
  address : Option String := none
  name : Option String := none
  requestedCategories : Option (List String) := none
  proposedFixedFee : Option String := none
  publicKey : Option String := none
  stakeAmount : Option String := none
  status : Option String := none
  attestationUID : Option String := none
  approveFixedFee : Option String := none
  submittedAt : Option String := none
  updatedAt : Option String := none
  txHash : Option String := none
  blockNumber : Option String := none
deriving DecidableEq

/-- A hash key that was never written: every field absent. -/
def RecordHash.empty : RecordHash := {}

/-- The `HGETALL` emptiness test `Object.keys(data).length === 0`: a Redis
hash exists exactly when it has at least one field. -/
def RecordHash.isEmpty (h : RecordHash) : Bool :=
  h.address.isNone && h.name.isNone && h.requestedCategories.isNone &&
  h.proposedFixedFee.isNone && h.publicKey.isNone && h.stakeAmount.isNone &&
  h.status.isNone && h.attestationUID.isNone && h.approveFixedFee.isNone &&
  h.submittedAt.isNone && h.updatedAt.isNone && h.txHash.isNone &&
  h.blockNumber.isNone

/-- The projected store: one record hash per lowercased issuer address plus
the three status index lists `issuers:pending` / `issuers:approved` /
`issuers:rejected`. -/
structure Store where
  records : String → RecordHash
  pending : List String
  approved : List String
  rejected : List String

/-- The store before any event was projected. -/
def Store.empty : Store :=
  { records := fun _ => RecordHash.empty, pending := [], approved := [], rejected := [] }

/-- Point update of one record hash, the effect of an `HSET` on one key. -/
def Store.updateRecord (s : Store) (k : String) (f : RecordHash → RecordHash) : Store :=
  { s with records := fun k2 => if k2 = k then f (s.records k2) else s.records k2 }

/-- Event metadata attached to every decoded log. -/
structure EventMetadata where
  txHash : String
  blockNumber : Nat
  timestamp : Nat
deriving DecidableEq

/-- Payload of an `IssuerApplicationSubmitted` log. -/
structure IssuerApplicationSubmittedEvent where
  issuer : String
  name : String
  requestedCategories : List String
  proposedFixedFee : String
  publicKey : String
  stakeAmount : String
deriving DecidableEq

/-- Payload of an `IssuerApproved` log. -/
structure IssuerApprovedEvent where
  caller : String
  issuer : String
  attestationUID : String
  approveFixedFee : Bool
deriving DecidableEq

/-- Payload of an `IssuerRejected` log. -/
structure IssuerRejectedEvent where
  caller : String
  issuer : String
deriving DecidableEq

/-! ## State projector (`src/services/issuerService.ts`) -/

/-- Fields written by the `HSET` of `handleApplicationSubmitted`; fields not
named by the `HSET` (`attestationUID`, `approveFixedFee`) keep their old
values. -/
def submittedHash (ev : IssuerApplicationSubmittedEvent) (md : EventMetadata)
    (old : RecordHash) : RecordHash :=
  { old with
    address := some (jsToLower ev.issuer)
    name := some ev.name
    requestedCategories := some ev.requestedCategories
    proposedFixedFee := some ev.proposedFixedFee
    publicKey := some ev.publicKey
    stakeAmount := some ev.stakeAmount
    status := some "pending"
    submittedAt := some (Nat.repr md.timestamp)
    updatedAt := some (Nat.repr md.timestamp)
    txHash := some md.txHash
    blockNumber := some (Nat.repr md.blockNumber) }

/-- Fields written by the `HSET` of `handleIssuerApproved`. -/
def approvedHash (ev : IssuerApprovedEvent) (md : EventMetadata)
    (old : RecordHash) : RecordHash :=
  { old with
    status := some "approved"
    attestationUID := some ev.attestationUID
    approveFixedFee := some (if ev.approveFixedFee then "true" else "false")
    updatedAt := some (Nat.repr md.timestamp) }

/-- Fields written by the `HSET` of `handleIssuerRejected`. -/
def rejectedHash (md : EventMetadata) (old : RecordHash) : RecordHash :=
  { old with
    status := some "rejected"
    updatedAt := some (Nat.repr md.timestamp) }

/-- `handleApplicationSubmitted`: `HSET` the record fields and `LPUSH` the
lowercased address onto `issuers:pending`. -/
def handleApplicationSubmitted (ev : IssuerApplicationSubmittedEvent)
    (md : EventMetadata) (s : Store) : Store :=
  let a := jsToLower ev.issuer
  let s1 := s.updateRecord a (submittedHash ev md)
  { s1 with pending := a :: s1.pending }

/-- `handleIssuerApproved`: `HSET` status/attestation/fee fields, `LREM` the
address from `issuers:pending`, `LPUSH` it onto `issuers:approved`. -/
def handleIssuerApproved (ev : IssuerApprovedEvent) (md : EventMetadata)
    (s : Store) : Store :=
  let a := jsToLower ev.issuer
  let s1 := s.updateRecord a (approvedHash ev md)
  { s1 with
    pending := s1.pending.filter (fun x => x != a)
    approved := a :: s1.approved }

/-- `handleIssuerRejected`: `HSET` status/updatedAt, `LREM` the address from
`issuers:pending`, `LPUSH` it onto `issuers:rejected`. -/
def handleIssuerRejected (ev : IssuerRejectedEvent) (md : EventMetadata)
    (s : Store) : Store :=
  let a := jsToLower ev.issuer
  let s1 := s.updateRecord a (rejectedHash md)
  { s1 with
    pending := s1.pending.filter (fun x => x != a)
    rejected := a :: s1.rejected }

/-- Status field of the record hash stored for key `a`. -/
def statusOf (s : Store) (a : String) : Option String :=
  (s.records a).status

/-! ## Query service (`src/services/issuerService.ts`) -/

/-- The typed issuer object built by `getIssuer`.  Fields that the
JavaScript object would carry as `undefined` are `none`; the numeric fields
go through `parseInt`, whose `NaN` is `none`. -/
structure IssuerOut where
  address : Option String
  name : Option String
  requestedCategories : List String
  proposedFixedFee : Option String
  publicKey : Option String
  stakeAmount : Option String
  status : Option String
  attestationUID : Option String
  approveFixedFee : Option Bool
  submittedAt : Option Int
  updatedAt : Option Int
  txHash : Option String
  blockNumber : Option Int
deriving DecidableEq

/-- Decoding of the stored `approveFixedFee` field:
`data.approveFixedFee ? data.approveFixedFee === 'true' : undefined`
(the empty string is the only falsy string). -/
def decodeApproveFixedFee : Option String → Option Bool
  | none => none
  | some v => if v = "" then none else some (v == "true")

/-- Decoding of a stored numeric field: `parseInt(field)`, where a missing
field gives `parseInt(undefined) = NaN`. -/
def decodeIntField : Option String → Option Int
  | none => none
  | some v => jsParseInt v

/-- The issuer object `getIssuer` builds from a non-empty hash. -/
def decodeIssuer (h : RecordHash) : IssuerOut :=
  { address := h.address
    name := h.name
    requestedCategories := h.requestedCategories.getD []
    proposedFixedFee := h.proposedFixedFee
    publicKey := h.publicKey
    stakeAmount := h.stakeAmount
    status := h.status
    attestationUID := h.attestationUID
    approveFixedFee := decodeApproveFixedFee h.approveFixedFee
    submittedAt := decodeIntField h.submittedAt
    updatedAt := decodeIntField h.updatedAt
    txHash := h.txHash
    blockNumber := decodeIntField h.blockNumber }

/-- `getIssuer(address)`: `HGETALL issuer:{address.toLowerCase()}`, `null`
when the hash is empty, otherwise the decoded issuer object. -/
def getIssuer (s : Store) (address : String) : Option IssuerOut :=
  if (s.records (jsToLower address)).isEmpty then none
  else some (decodeIssuer (s.records (jsToLower address)))

/-- Pagination envelope returned by the listing queries. -/
structure IssuerListResponse where
  issuers : List IssuerOut
  total : Nat
  limit : Int
  offset : Int
deriving DecidableEq

/-- The status index list for one status value. -/
def statusList (s : Store) (status : String) : List String :=
  if status = "pending" then s.pending
  else if status = "approved" then s.approved
  else if status = "rejected" then s.rejected
  else []

/-- `getIssuersByStatus({status, limit, offset})`: `LLEN` for the total,
`LRANGE list offset (offset+limit-1)` for the page, then hydrate each
address through `getIssuer`, skipping addresses with no record. -/
def getIssuersByStatus (s : Store) (status : String) (limit offset : Int) :
    IssuerListResponse :=
  let l := statusList s status
  { issuers := (lrange l offset (offset + limit - 1)).filterMap (fun a => getIssuer s a)
    total := l.length
    limit := limit
    offset := offset }

/-- `getAllIssuers(limit, offset)`: fetch each partition with
`getIssuersByStatus({status, limit: 1000})`, concatenate, stable-sort by
`updatedAt` descending, then `slice(offset, offset + limit)`. -/
def getAllIssuers (s : Store) (limit offset : Int) : IssuerListResponse :=
  let rp := getIssuersByStatus s "pending" 1000 0
  let ra := getIssuersByStatus s "approved" 1000 0
  let rr := getIssuersByStatus s "rejected" 1000 0
  let all := rp.issuers ++ ra.issuers ++ rr.issuers
  let sorted := jsSort (fun a b => decide ((b.updatedAt.getD 0) ≤ (a.updatedAt.getD 0))) all
  { issuers := jsSlice sorted offset (offset + limit)
    total := rp.total + ra.total + rr.total
    limit := limit
    offset := offset }

/-! ## Domain events and event sequences -/

/-- The tagged union of the three decoded domain events with their metadata. -/
inductive DomainEvent where
  | submitted (ev : IssuerApplicationSubmittedEvent) (md : EventMetadata)
  | approvedEv (ev : IssuerApprovedEvent) (md : EventMetadata)
  | rejectedEv (ev : IssuerRejectedEvent) (md : EventMetadata)
deriving DecidableEq

/-- Projection of one domain event, dispatching to the matching handler. -/
def DomainEvent.apply : DomainEvent → Store → Store
  | .submitted ev md, s => handleApplicationSubmitted ev md s
  | .approvedEv ev md, s => handleIssuerApproved ev md s
  | .rejectedEv ev md, s => handleIssuerRejected ev md s

/-- The store key an event writes to: the lowercased issuer address. -/
def DomainEvent.target : DomainEvent → String
  | .submitted ev _ => jsToLower ev.issuer
  | .approvedEv ev _ => jsToLower ev.issuer
  | .rejectedEv ev _ => jsToLower ev.issuer

/-- Whether the event is an application submission. -/
def DomainEvent.isSubmitted : DomainEvent → Bool
  | .submitted _ _ => true
  | _ => false

/-- Whether the event is an approval. -/
def DomainEvent.isApproval : DomainEvent → Bool
  | .approvedEv _ _ => true
  | _ => false

/-- Project a sequence of events in order. -/
def applyEvents (s : Store) (es : List DomainEvent) : Store :=
  es.foldl (fun acc e => e.apply acc) s

/-! ## Status traces and legal event sequences -/

/-- The status of key `a` observed after every prefix of `es`, starting from
the empty store; prefixes at which no record exists contribute nothing. -/
def statusTrace (a : String) (es : List DomainEvent) : List String :=
  (List.range (es.length + 1)).filterMap
    (fun i => statusOf (applyEvents Store.empty (es.take i)) a)

/-- Collapse consecutive duplicates, turning the raw per-prefix trace into
the sequence of observed status changes over time. -/
def collapse : List String → List String
  | [] => []
  | [x] => [x]
  | x :: y :: r => if x = y then collapse (y :: r) else x :: collapse (y :: r)

/-- The subsequence of events whose target key is `a`. -/
def eventsFor (a : String) (es : List DomainEvent) : List DomainEvent :=
  es.filter (fun e => e.target == a)

/-- Helper for `shapeOk`: every event before the last one is a submission. -/
def tailOk : List DomainEvent → Bool
  | [] => true
  | [_] => true
  | e :: rest => e.isSubmitted && tailOk rest

/-- Shape of a legal per-address event sequence: one or more submissions
followed by at most one approval-or-rejection (an approval or rejection is
always preceded by a submission and followed by nothing), or no events at
all.  This is the shape the contract emits for one applicant. -/
def shapeOk : List DomainEvent → Bool
  | [] => true
  | e :: rest => e.isSubmitted && tailOk rest

/-- The event sequence is legal for the address key `a`. -/
def LegalFor (a : String) (es : List DomainEvent) : Prop :=
  shapeOk (eventsFor a es) = true

/-! ## Progress cursors

Two independent cursors exist: the backfill script's
`backfill:last_processed_block` and the polling service's
`blockchain:lastBlock`.  A cursor cell is the `Option String` content of its
Redis key; a read is `Except Unit (Option String)` so that the `catch`
branches of the source are represented. -/

namespace BackfillService

/-- `setLastProcessedBlock(blockNumber)`: plain
`SET backfill:last_processed_block blockNumber.toString()` (a failed write is
caught and ignored; the success path is modelled). -/
def setLastProcessedBlock (blockNumber : Int) (_cell : Option String) : Option String :=
  some (intToString blockNumber)

/-- `getLastProcessedBlock()` of the backfill script: parse the stored string
when present and truthy; fall back to `config.blockchain.startBlock - 1` both
when the key is unset and when the Redis read throws. -/
def getLastProcessedBlock (read : Except Unit (Option String)) (startBlock : Int) :
    Option Int :=
  match read with
  | .error _ => some (startBlock - 1)
  | .ok none => some (startBlock - 1)
  | .ok (some s) => if s = "" then some (startBlock - 1) else jsParseInt s

end BackfillService

namespace BlockchainService

/-- `updateLastProcessedBlock(blockNumber)`: plain
`SET blockchain:lastBlock blockNumber.toString()`. -/
def updateLastProcessedBlock (blockNumber : Int) (_cell : Option String) : Option String :=
  some (intToString blockNumber)

/-- `getLastProcessedBlock()` of the polling service: parse the stored string
when truthy; when the key is unset it persists and returns the CURRENT chain
height, and when the Redis read throws it falls back to the current chain
height as well. -/
def getLastProcessedBlock (read : Except Unit (Option String)) (currentBlock : Int) :
    Option Int :=
  match read with
  | .error _ => some currentBlock
  | .ok none => some currentBlock
  | .ok (some s) => if s = "" then some currentBlock else jsParseInt s

end BlockchainService

/-! ## Backfill and polling loops

`fetch` stands for `getHistoricalEvents` / `getLogs` (`none` models a thrown
RPC call) and `proj` for the parse-decode-project pipeline applied to one log
(`none` models a parse failure or a thrown handler). -/

/-- `processLogs(logs)` of the backfill script (and the per-log loop of the
polling cycle): project each log in order; a failure on one log is caught,
logged, and the loop continues with the next log; returns the resulting
store and the number of successfully processed events. -/
def processLogs {L : Type} (proj : L → Store → Option Store) :
    List L → Store → Store × Nat
  | [], s => (s, 0)
  | l :: ls, s =>
    match proj l s with
    | some s2 =>
      let r := processLogs proj ls s2
      (r.1, r.2 + 1)
    | none => processLogs proj ls s

/-- Store plus backfill cursor cell, the state threaded through the loop. -/
structure BackfillState where
  store : Store
  cursor : Option String

/-- Body of one iteration of the backfill `while` loop for the batch
`[r.1, r.2]`: fetch the batch's logs, project them (single-log failures are
swallowed inside `processLogs`), then `setLastProcessedBlock(batchEndBlock)`;
a thrown fetch is caught and logged and the iteration leaves the state
unchanged, after which the loop continues with the next batch. -/
def processBatch {L : Type} (fetch : Int × Int → Option (List L))
    (proj : L → Store → Option Store) (r : Int × Int) (st : BackfillState) :
    BackfillState :=
  match fetch r with
  | some logs =>
    { store := (processLogs proj logs st.store).1
      cursor := BackfillService.setLastProcessedBlock r.2 st.cursor }
  | none => st

/-- The backfill `while` loop over a precomputed list of batch ranges. -/
def runBatches {L : Type} (fetch : Int × Int → Option (List L))
    (proj : L → Store → Option Store) (ranges : List (Int × Int))
    (st : BackfillState) : BackfillState :=
  ranges.foldl (fun acc r => processBatch fetch proj r acc) st

/-- The successive `[currentBlock, batchEndBlock]` ranges the backfill loop
visits: `batchEndBlock = min (currentBlock + batchSize - 1) toBlock` and the
next iteration starts at `batchEndBlock + 1`.  `fuel` bounds the recursion;
any `fuel ≥ toBlock + 1 - fromBlock` is enough when the batch size is
positive. -/
def batchRanges : Nat → Int → Int → Int → List (Int × Int)
  | 0, _, _, _ => []
  | fuel + 1, cur, toB, bs =>
    if cur ≤ toB then
      let be := min (cur + bs - 1) toB
      (cur, be) :: batchRanges fuel (be + 1) toB bs
    else []

/-- `run(options)` after its range computation: iterate the batches from
`fromBlock` to `toBlock` with the given batch size. -/
def runBackfillLoop {L : Type} (fetch : Int × Int → Option (List L))
    (proj : L → Store → Option Store) (fromBlock toBlock batchSize : Int)
    (st : BackfillState) : BackfillState :=
  runBatches fetch proj
    (batchRanges (toBlock + 1 - fromBlock).toNat fromBlock toBlock batchSize) st

/-- One cycle of `pollEvents`: with `lastBlock` from the cursor and the
current height, fetch `[lastBlock + 1, currentBlock]` in one call, project
each log (`processEventLog` swallows per-log failures), then set the cursor
to the current height; a thrown fetch is caught and leaves store and cursor
untouched (the cycle is rescheduled after the retry delay). -/
def pollEventsCycle {L : Type} (fetchL : Int → Int → Option (List L))
    (proj : L → Store → Option Store) (lastBlock currentBlock : Int)
    (s : Store) (cell : Option String) : Store × Option String :=
  if lastBlock < currentBlock then
    match fetchL (lastBlock + 1) currentBlock with
    | some logs =>
      ((processLogs proj logs s).1,
        BlockchainService.updateLastProcessedBlock currentBlock cell)
    | none => (s, cell)
  else (s, cell)

/-! ## Frame and step lemmas for the projector -/

theorem applyEvents_concat (s : Store) (es : List DomainEvent) (e : DomainEvent) :
    applyEvents s (es ++ [e]) = e.apply (applyEvents s es) := by
  simp [applyEvents, List.foldl_append]

theorem statusOf_apply_of_target_ne (e : DomainEvent) (s : Store) (a : String)
    (h : e.target ≠ a) : statusOf (e.apply s) a = statusOf s a := by
  cases e <;>
    simp only [DomainEvent.apply, DomainEvent.target, handleApplicationSubmitted,
      handleIssuerApproved, handleIssuerRejected, Store.updateRecord, statusOf] at h ⊢ <;>
    rw [if_neg (Ne.symm h)]

theorem statusOf_apply_submitted (ev : IssuerApplicationSubmittedEvent)
    (md : EventMetadata) (s : Store) :
    statusOf ((DomainEvent.submitted ev md).apply s) (jsToLower ev.issuer) =
      some "pending" := by
  simp [DomainEvent.apply, handleApplicationSubmitted, Store.updateRecord, statusOf,
    submittedHash]

theorem statusOf_apply_approved (ev : IssuerApprovedEvent)
    (md : EventMetadata) (s : Store) :
    statusOf ((DomainEvent.approvedEv ev md).apply s) (jsToLower ev.issuer) =
      some "approved" := by
  simp [DomainEvent.apply, handleIssuerApproved, Store.updateRecord, statusOf,
    approvedHash]

theorem statusOf_apply_rejected (ev : IssuerRejectedEvent)
    (md : EventMetadata) (s : Store) :
    statusOf ((DomainEvent.rejectedEv ev md).apply s) (jsToLower ev.issuer) =
      some "rejected" := by
  simp [DomainEvent.apply, handleIssuerRejected, Store.updateRecord, statusOf,
    rejectedHash]

theorem eventsFor_concat (a : String) (es : List DomainEvent) (e : DomainEvent) :
    eventsFor a (es ++ [e]) =
      eventsFor a es ++ (if e.target == a then [e] else []) := by
  simp only [eventsFor, List.filter_append, List.filter_cons, List.filter_nil]

theorem statusTrace_concat (a : String) (es : List DomainEvent) (e : DomainEvent) :
    statusTrace a (es ++ [e]) =
      statusTrace a es ++ (statusOf (applyEvents Store.empty (es ++ [e])) a).toList := by
  unfold statusTrace
  rw [List.length_append, List.length_singleton, List.range_succ, List.filterMap_append]
  congr 1
  · exact List.filterMap_congr fun i hi => by
      rw [List.take_append_of_le_length (by simpa using Nat.lt_succ_iff.mp (List.mem_range.mp hi))]
  · rw [List.filterMap_cons, List.filterMap_nil,
      List.take_of_length_le (by simp)]
    cases statusOf (applyEvents Store.empty (es ++ [e])) a <;> rfl

/-! ## Shape lemmas for legal event sequences -/

theorem tailOk_all : ∀ (l : List DomainEvent) (x : DomainEvent),
    tailOk (l ++ [x]) = true → ∀ y ∈ l, y.isSubmitted = true := by
  intro l
  induction l with
  | nil => intro x _ y hy; cases hy
  | cons c r ih =>
    intro x h y hy
    have hcr : tailOk (c :: (r ++ [x])) = (c.isSubmitted && tailOk (r ++ [x])) := by
      cases r <;> rfl
    rw [List.cons_append, hcr, Bool.and_eq_true] at h
    rcases List.mem_cons.mp hy with rfl | hyr
    · exact h.1
    · exact ih x h.2 y hyr

theorem shapeOk_append_all {l : List DomainEvent} {x : DomainEvent}
    (h : shapeOk (l ++ [x]) = true) : ∀ y ∈ l, y.isSubmitted = true := by
  cases l with
  | nil => intro y hy; cases hy
  | cons c r =>
    intro y hy
    have hs : shapeOk ((c :: r) ++ [x]) = (c.isSubmitted && tailOk (r ++ [x])) := rfl
    rw [hs, Bool.and_eq_true] at h
    rcases List.mem_cons.mp hy with rfl | hyr
    · exact h.1
    · exact tailOk_all r x h.2 y hyr

theorem tailOk_of_all : ∀ (l : List DomainEvent),
    (∀ y ∈ l, y.isSubmitted = true) → tailOk l = true := by
  intro l
  induction l with
  | nil => intro _; rfl
  | cons c r ih =>
    intro h
    cases r with
    | nil => rfl
    | cons d r2 =>
      have ht : tailOk (c :: d :: r2) = (c.isSubmitted && tailOk (d :: r2)) := rfl
      rw [ht, Bool.and_eq_true]
      exact ⟨h c (List.mem_cons_self ..), ih fun y hy => h y (List.mem_cons_of_mem _ hy)⟩

theorem shapeOk_of_all {l : List DomainEvent}
    (h : ∀ y ∈ l, y.isSubmitted = true) : shapeOk l = true := by
  cases l with
  | nil => rfl
  | cons c r =>
    have hs : shapeOk (c :: r) = (c.isSubmitted && tailOk r) := rfl
    rw [hs, Bool.and_eq_true]
    exact ⟨h c (List.mem_cons_self ..), tailOk_of_all r fun y hy => h y (List.mem_cons_of_mem _ hy)⟩

/-! ## Decimal printing and parsing round trip -/

/-- The decimal digit characters of a natural number, most significant
first; reference version of the fuelled `Nat.toDigitsCore`. -/
def natChars (n : Nat) : List Char :=
  if _h : n < 10 then [Nat.digitChar n]
  else natChars (n / 10) ++ [Nat.digitChar (n % 10)]
decreasing_by exact Nat.div_lt_self (by omega) (by omega)

theorem toDigitsCore_eq_natChars :
    ∀ (fuel n : Nat) (ds : List Char), n < fuel →
      Nat.toDigitsCore 10 fuel n ds = natChars n ++ ds := by
  intro fuel
  induction fuel with
  | zero => intro n ds h; omega
  | succ fuel ih =>
    intro n ds h
    show (if n / 10 = 0 then Nat.digitChar (n % 10) :: ds
      else Nat.toDigitsCore 10 fuel (n / 10) (Nat.digitChar (n % 10) :: ds)) =
        natChars n ++ ds
    by_cases h0 : n / 10 = 0
    · have hn : n < 10 := (Nat.div_eq_zero_iff (by omega)).mp h0
      rw [if_pos h0, natChars, dif_pos hn, Nat.mod_eq_of_lt hn]
      rfl
    · have hn : ¬n < 10 := fun hlt => h0 ((Nat.div_eq_zero_iff (by omega)).mpr hlt)
      have hdiv : n / 10 < n := Nat.div_lt_self (by omega) (by omega)
      rw [if_neg h0, ih (n / 10) _ (by omega)]
      conv_rhs => rw [natChars]
      rw [dif_neg hn, List.append_assoc]
      rfl

theorem repr_toList (n : Nat) : (Nat.repr n).toList = natChars n := by
  show (Nat.toDigitsCore 10 (n + 1) n []).asString.toList = natChars n
  rw [toDigitsCore_eq_natChars (n + 1) n [] (Nat.lt_succ_self n), List.append_nil]
  rfl

theorem digitChar_isDigit {k : Nat} (h : k < 10) : (Nat.digitChar k).isDigit = true := by
  interval_cases k <;> decide

theorem digitChar_toNat {k : Nat} (h : k < 10) : (Nat.digitChar k).toNat - 48 = k := by
  interval_cases k <;> decide

theorem natChars_all_digit : ∀ n, ∀ c ∈ natChars n, c.isDigit = true := by
  intro n
  induction n using Nat.strong_induction_on with
  | _ n ih =>
    intro c hc
    by_cases h : n < 10
    · rw [natChars, dif_pos h] at hc
      rcases List.mem_singleton.mp hc with rfl
      exact digitChar_isDigit h
    · rw [natChars, dif_neg h] at hc
      rcases List.mem_append.mp hc with h1 | h2
      · exact ih (n / 10) (Nat.div_lt_self (by omega) (by omega)) c h1
      · rcases List.mem_singleton.mp h2 with rfl
        exact digitChar_isDigit (Nat.mod_lt n (by omega))

theorem natChars_ne_nil (n : Nat) : natChars n ≠ [] := by
  by_cases h : n < 10
  · rw [natChars, dif_pos h]; exact List.cons_ne_nil _ _
  · rw [natChars, dif_neg h]; simp

theorem digitsVal_append (l : List Char) (c : Char) :
    digitsVal (l ++ [c]) = digitsVal l * 10 + (c.toNat - 48) := by
  simp [digitsVal, List.foldl_append]

theorem digitsVal_natChars : ∀ n, digitsVal (natChars n) = n := by
  intro n
  induction n using Nat.strong_induction_on with
  | _ n ih =>
    by_cases h : n < 10
    · rw [natChars, dif_pos h]
      show 0 * 10 + ((Nat.digitChar n).toNat - 48) = n
      rw [digitChar_toNat h]
      omega
    · rw [natChars, dif_neg h, digitsVal_append,
        ih (n / 10) (Nat.div_lt_self (by omega) (by omega)),
        digitChar_toNat (Nat.mod_lt n (by omega))]
      omega

theorem takeWhile_eq_self_of_all {α : Type} {p : α → Bool} :
    ∀ l : List α, (∀ c ∈ l, p c = true) → l.takeWhile p = l := by
  intro l
  induction l with
  | nil => intro _; rfl
  | cons c r ih =>
    intro h
    rw [List.takeWhile_cons, if_pos (h c (List.mem_cons_self ..)),
      ih fun y hy => h y (List.mem_cons_of_mem _ hy)]

theorem parseDigits_natChars (n : Nat) : parseDigits (natChars n) = some n := by
  show (if (natChars n).takeWhile Char.isDigit = [] then none
    else some (digitsVal ((natChars n).takeWhile Char.isDigit))) = some n
  rw [takeWhile_eq_self_of_all _ (natChars_all_digit n), if_neg (natChars_ne_nil n),
    digitsVal_natChars]

theorem digit_not_ws {c : Char} (h : c.isDigit = true) : c.isWhitespace = false := by
  rw [Char.isDigit, Bool.and_eq_true, decide_eq_true_eq, decide_eq_true_eq] at h
  simp only [Char.isWhitespace, Bool.or_eq_false_iff, decide_eq_false_iff_not]
  refine ⟨⟨⟨?_, ?_⟩, ?_⟩, ?_⟩ <;> rintro rfl <;> revert h <;> decide

theorem digit_ne_minus {c : Char} (h : c.isDigit = true) : c ≠ '-' := by
  rw [Char.isDigit, Bool.and_eq_true, decide_eq_true_eq, decide_eq_true_eq] at h
  rintro rfl; revert h; decide

theorem digit_ne_plus {c : Char} (h : c.isDigit = true) : c ≠ '+' := by
  rw [Char.isDigit, Bool.and_eq_true, decide_eq_true_eq, decide_eq_true_eq] at h
  rintro rfl; revert h; decide

theorem jsParseInt_natRepr (n : Nat) : jsParseInt (Nat.repr n) = some (n : Int) := by
  obtain ⟨c, cs, hc⟩ := List.exists_cons_of_ne_nil (natChars_ne_nil n)
  have hcd : c.isDigit = true := natChars_all_digit n c (hc ▸ List.mem_cons_self ..)
  show (match (Nat.repr n).toList.dropWhile Char.isWhitespace with
    | [] => none
    | c :: rest =>
      if c = '-' then (parseDigits rest).map (fun n => -(n : Int))
      else if c = '+' then (parseDigits rest).map (fun n => (n : Int))
      else (parseDigits (c :: rest)).map (fun n => (n : Int))) = some (n : Int)
  rw [repr_toList, hc, List.dropWhile_cons, if_neg (by rw [digit_not_ws hcd]; exact Bool.false_ne_true)]
  show (if c = '-' then (parseDigits cs).map (fun n => -(n : Int))
    else if c = '+' then (parseDigits cs).map (fun n => (n : Int))
    else (parseDigits (c :: cs)).map (fun n => (n : Int))) = some (n : Int)
  rw [if_neg (digit_ne_minus hcd), if_neg (digit_ne_plus hcd), ← hc,
    parseDigits_natChars]
  rfl

theorem jsParseInt_intToString (n : Int) : jsParseInt (intToString n) = some n := by
  cases n with
  | ofNat m => exact jsParseInt_natRepr m
  | negSucc m =>
    obtain ⟨c, cs, hc⟩ := List.exists_cons_of_ne_nil (natChars_ne_nil (m + 1))
    show jsParseInt ("-" ++ Nat.repr (m + 1)) = some (Int.negSucc m)
    have hdata : ("-" ++ Nat.repr (m + 1)).toList = '-' :: (Nat.repr (m + 1)).toList := rfl
    show (match ("-" ++ Nat.repr (m + 1)).toList.dropWhile Char.isWhitespace with
      | [] => none
      | c :: rest =>
        if c = '-' then (parseDigits rest).map (fun n => -(n : Int))
        else if c = '+' then (parseDigits rest).map (fun n => (n : Int))
        else (parseDigits (c :: rest)).map (fun n => (n : Int))) = some (Int.negSucc m)
    rw [hdata, List.dropWhile_cons, if_neg (by decide)]
    show (if ('-' : Char) = '-' then ((parseDigits (Nat.repr (m + 1)).toList).map (fun n => -(n : Int)))
      else if ('-' : Char) = '+' then (parseDigits (Nat.repr (m + 1)).toList).map (fun n => (n : Int))
      else (parseDigits ('-' :: (Nat.repr (m + 1)).toList)).map (fun n => (n : Int)))
        = some (Int.negSucc m)
    rw [if_pos rfl, repr_toList, parseDigits_natChars]
    show some (-((m : Int) + 1)) = some (Int.negSucc m)
    rw [Int.negSucc_eq]

theorem intToString_ne_empty (n : Int) : intToString n ≠ "" := by
  cases n with
  | ofNat m =>
    intro h
    have h2 : Nat.repr m = "" := h
    have h3 : (Nat.repr m).toList = [] := by rw [h2]; rfl
    rw [repr_toList] at h3
    exact natChars_ne_nil m h3
  | negSucc m =>
    intro h
    have h2 : "-" ++ Nat.repr (m + 1) = "" := h
    have h3 : ("-" ++ Nat.repr (m + 1)).toList = [] := by rw [h2]; rfl
    exact List.cons_ne_nil _ _ h3

/-! ## Shape of the status trace under legal event sequences -/

theorem statusTrace_shape (a : String) :
    ∀ es : List DomainEvent, shapeOk (eventsFor a es) = true →
      (statusTrace a es = [] ∧ statusOf (applyEvents Store.empty es) a = none
        ∧ eventsFor a es = [])
    ∨ ((∃ k, statusTrace a es = List.replicate (k + 1) "pending")
        ∧ statusOf (applyEvents Store.empty es) a = some "pending"
        ∧ ∀ y ∈ eventsFor a es, y.isSubmitted = true)
    ∨ ((∃ k m, statusTrace a es =
          List.replicate (k + 1) "pending" ++ List.replicate (m + 1) "approved")
        ∧ statusOf (applyEvents Store.empty es) a = some "approved"
        ∧ ∃ y ∈ eventsFor a es, y.isSubmitted = false)
    ∨ ((∃ k m, statusTrace a es =
          List.replicate (k + 1) "pending" ++ List.replicate (m + 1) "rejected")
        ∧ statusOf (applyEvents Store.empty es) a = some "rejected"
        ∧ ∃ y ∈ eventsFor a es, y.isSubmitted = false) := by
  intro es
  induction es using List.reverseRecOn with
  | nil => intro _; exact Or.inl ⟨rfl, rfl, rfl⟩
  | append_singleton es e ih =>
    intro hleg
    have htr := statusTrace_concat a es e
    have happ := applyEvents_concat Store.empty es e
    rw [eventsFor_concat] at hleg
    by_cases ht : e.target == a
    · rw [if_pos ht] at hleg
      have hta : e.target = a := by simpa using ht
      have hall : ∀ y ∈ eventsFor a es, y.isSubmitted = true := shapeOk_append_all hleg
      have hOk : shapeOk (eventsFor a es) = true := shapeOk_of_all hall
      have hev := eventsFor_concat a es e
      rw [if_pos ht] at hev
      cases e with
      | submitted ev md =>
        have hst : statusOf (applyEvents Store.empty
            (es ++ [DomainEvent.submitted ev md])) a = some "pending" := by
          rw [happ, ← hta]
          exact statusOf_apply_submitted ev md _
        rcases ih hOk with ⟨h1, _, h3⟩ | ⟨⟨k, h1⟩, _, h3⟩ | ⟨_, _, y, hy, hyF⟩ | ⟨_, _, y, hy, hyF⟩
        · refine Or.inr (Or.inl ⟨⟨0, ?_⟩, hst, ?_⟩)
          · rw [htr, hst, h1]; rfl
          · intro y hy
            rw [hev, h3] at hy
            rcases List.mem_singleton.mp (by simpa using hy) with rfl
            rfl
        · refine Or.inr (Or.inl ⟨⟨k + 1, ?_⟩, hst, ?_⟩)
          · rw [htr, hst, h1, List.replicate_succ' (k + 1)]; rfl
          · intro y hy
            rw [hev] at hy
            rcases List.mem_append.mp hy with hyl | hyr
            · exact h3 y hyl
            · rcases List.mem_singleton.mp hyr with rfl; rfl
        · exact absurd (hall y hy) (by rw [hyF]; exact Bool.false_ne_true)
        · exact absurd (hall y hy) (by rw [hyF]; exact Bool.false_ne_true)
      | approvedEv ev md =>
        have hst : statusOf (applyEvents Store.empty
            (es ++ [DomainEvent.approvedEv ev md])) a = some "approved" := by
          rw [happ, ← hta]
          exact statusOf_apply_approved ev md _
        rcases ih hOk with ⟨_, _, h3⟩ | ⟨⟨k, h1⟩, _, _⟩ | ⟨_, _, y, hy, hyF⟩ | ⟨_, _, y, hy, hyF⟩
        · rw [h3] at hleg
          exact absurd hleg (by simp [shapeOk, DomainEvent.isSubmitted])
        · refine Or.inr (Or.inr (Or.inl ⟨⟨k, 0, ?_⟩, hst, ?_⟩))
          · rw [htr, hst, h1]; rfl
          · exact ⟨DomainEvent.approvedEv ev md, by rw [hev]; simp, rfl⟩
        · exact absurd (hall y hy) (by rw [hyF]; exact Bool.false_ne_true)
        · exact absurd (hall y hy) (by rw [hyF]; exact Bool.false_ne_true)
      | rejectedEv ev md =>
        have hst : statusOf (applyEvents Store.empty
            (es ++ [DomainEvent.rejectedEv ev md])) a = some "rejected" := by
          rw [happ, ← hta]
          exact statusOf_apply_rejected ev md _
        rcases ih hOk with ⟨_, _, h3⟩ | ⟨⟨k, h1⟩, _, _⟩ | ⟨_, _, y, hy, hyF⟩ | ⟨_, _, y, hy, hyF⟩
        · rw [h3] at hleg
          exact absurd hleg (by simp [shapeOk, DomainEvent.isSubmitted])
        · refine Or.inr (Or.inr (Or.inr ⟨⟨k, 0, ?_⟩, hst, ?_⟩))
          · rw [htr, hst, h1]; rfl
          · exact ⟨DomainEvent.rejectedEv ev md, by rw [hev]; simp, rfl⟩
        · exact absurd (hall y hy) (by rw [hyF]; exact Bool.false_ne_true)
        · exact absurd (hall y hy) (by rw [hyF]; exact Bool.false_ne_true)
    · rw [if_neg ht, List.append_nil] at hleg
      have htne : e.target ≠ a := by simpa using ht
      have hev := eventsFor_concat a es e
      rw [if_neg ht, List.append_nil] at hev
      have hframe : statusOf (applyEvents Store.empty (es ++ [e])) a =
          statusOf (applyEvents Store.empty es) a := by
        rw [happ]
        exact statusOf_apply_of_target_ne e _ a htne
      rcases ih hleg with ⟨h1, h2, h3⟩ | ⟨⟨k, h1⟩, h2, h3⟩ |
        ⟨⟨k, m, h1⟩, h2, h3⟩ | ⟨⟨k, m, h1⟩, h2, h3⟩
      · exact Or.inl ⟨by rw [htr, hframe, h2, h1]; rfl, by rw [hframe]; exact h2,
          by rw [hev]; exact h3⟩
      · refine Or.inr (Or.inl ⟨⟨k + 1, ?_⟩, by rw [hframe]; exact h2, by rw [hev]; exact h3⟩)
        rw [htr, hframe, h2, h1, List.replicate_succ' (k + 1)]; rfl
      · refine Or.inr (Or.inr (Or.inl ⟨⟨k, m + 1, ?_⟩, by rw [hframe]; exact h2,
          by rw [hev]; exact h3⟩))
        have hts : (some "approved").toList = ["approved"] := rfl
        rw [htr, hframe, h2, h1, hts, List.append_assoc, ← List.replicate_succ' (m + 1)]
      · refine Or.inr (Or.inr (Or.inr ⟨⟨k, m + 1, ?_⟩, by rw [hframe]; exact h2,
          by rw [hev]; exact h3⟩))
        have hts : (some "rejected").toList = ["rejected"] := rfl
        rw [htr, hframe, h2, h1, hts, List.append_assoc, ← List.replicate_succ' (m + 1)]

/-! ## Collapse lemmas -/

theorem collapse_replicate (x : String) : ∀ k, collapse (List.replicate (k + 1) x) = [x] := by
  intro k
  induction k with
  | zero => rfl
  | succ k ih =>
    show collapse (x :: x :: List.replicate k x) = [x]
    rw [collapse, if_pos rfl]
    exact ih

theorem collapse_replicate_append (x y : String) (hxy : x ≠ y) :
    ∀ k m, collapse (List.replicate (k + 1) x ++ List.replicate (m + 1) y) = [x, y] := by
  intro k
  induction k with
  | zero =>
    intro m
    show collapse (x :: y :: List.replicate m y) = [x, y]
    rw [collapse, if_neg hxy]
    rw [show (y :: List.replicate m y) = List.replicate (m + 1) y from rfl,
      collapse_replicate]
  | succ k ih =>
    intro m
    show collapse (x :: x :: (List.replicate k x ++ List.replicate (m + 1) y)) = [x, y]
    rw [collapse, if_pos rfl]
    exact ih m

/-! ## Further helper lemmas -/

theorem isEmpty_eq_empty {h : RecordHash} (he : h.isEmpty = true) :
    h = RecordHash.empty := by
  cases h
  simp only [RecordHash.isEmpty, Bool.and_eq_true, Option.isNone_iff_eq_none] at he
  obtain ⟨⟨⟨⟨⟨⟨⟨⟨⟨⟨⟨⟨h1, h2⟩, h3⟩, h4⟩, h5⟩, h6⟩, h7⟩, h8⟩, h9⟩, h10⟩, h11⟩, h12⟩, h13⟩ := he
  subst h1 h2 h3 h4 h5 h6 h7 h8 h9 h10 h11 h12 h13
  rfl

theorem approveFixedFee_apply (e : DomainEvent) (s : Store) (k : String)
    (hk : (s.records k).approveFixedFee = none)
    (h : e.isApproval = true → e.target ≠ k) :
    ((e.apply s).records k).approveFixedFee = none := by
  cases e with
  | submitted ev md =>
    show ((if k = jsToLower ev.issuer then submittedHash ev md (s.records k)
      else s.records k)).approveFixedFee = none
    split <;> exact hk
  | approvedEv ev md =>
    have hne : jsToLower ev.issuer ≠ k := h rfl
    show ((if k = jsToLower ev.issuer then approvedHash ev md (s.records k)
      else s.records k)).approveFixedFee = none
    rw [if_neg (fun hh => hne hh.symm)]
    exact hk
  | rejectedEv ev md =>
    show ((if k = jsToLower ev.issuer then rejectedHash md (s.records k)
      else s.records k)).approveFixedFee = none
    split <;> exact hk

theorem approveFixedFee_none_of_no_approval (k : String) :
    ∀ (es : List DomainEvent) (s : Store),
      (s.records k).approveFixedFee = none →
      (∀ e ∈ es, e.isApproval = true → e.target ≠ k) →
      ((applyEvents s es).records k).approveFixedFee = none := by
  intro es
  induction es with
  | nil => intro s hk _; exact hk
  | cons e rest ih =>
    intro s hk hall
    show ((applyEvents (e.apply s) rest).records k).approveFixedFee = none
    exact ih (e.apply s)
      (approveFixedFee_apply e s k hk (hall e (List.mem_cons_self ..)))
      (fun e2 he2 => hall e2 (List.mem_cons_of_mem _ he2))

theorem foldl_set_getLast :
    ∀ (ns : List Int) (c0 : Option String) (l : Int), ns.getLast? = some l →
      ns.foldl (fun c n => BackfillService.setLastProcessedBlock n c) c0 =
        some (intToString l) := by
  intro ns
  induction ns with
  | nil => intro c0 l h; cases h
  | cons n rest ih =>
    intro c0 l h
    cases rest with
    | nil =>
      have hn : n = l := by simpa using h
      subst hn
      rfl
    | cons m rest2 =>
      have h2 : (m :: rest2).getLast? = some l := by
        rwa [List.getLast?_cons_cons] at h
      exact ih _ l h2

/-! ## Concrete fixtures for the claim theorems -/

def c1Ev : IssuerApplicationSubmittedEvent :=
  { issuer := "0xCC", name := "Acme", requestedCategories := ["kyc"],
    proposedFixedFee := "10", publicKey := "pk", stakeAmount := "5" }

def c1Md : EventMetadata := { txHash := "0xt1", blockNumber := 100, timestamp := 1111 }

def c2Sub : DomainEvent :=
  .submitted ⟨"0xAA", "A", [], "1", "pk", "2"⟩ ⟨"t1", 100, 1000⟩

def c2App : DomainEvent :=
  .approvedEv ⟨"0xop", "0xAA", "0xDEAD", true⟩ ⟨"t2", 101, 2000⟩

def c2Rej : DomainEvent :=
  .rejectedEv ⟨"0xop", "0xAA"⟩ ⟨"t3", 102, 3000⟩

def c3Sub : DomainEvent :=
  .submitted ⟨"0xDD", "D", ["cat"], "3", "pk3", "7"⟩ ⟨"t9", 50, 500⟩

def c3App : DomainEvent :=
  .approvedEv ⟨"0xop", "0xDD", "uid-3", false⟩ ⟨"t10", 51, 510⟩

def c3Rej : DomainEvent :=
  .rejectedEv ⟨"0xop", "0xDD"⟩ ⟨"t11", 52, 520⟩

def c4AppEv : IssuerApprovedEvent :=
  { caller := "0xop", issuer := "0xBB", attestationUID := "uid-1", approveFixedFee := true }

def c4RejEv : IssuerRejectedEvent := { caller := "0xop", issuer := "0xB2" }

def c4Md : EventMetadata := { txHash := "t4", blockNumber := 7, timestamp := 700 }

def c6Fetch : Int × Int → Option (List Nat) := fun _ => some [0]

def c6FetchFail : Int × Int → Option (List Nat) := fun _ => none

def c6Proj : Nat → Store → Option Store := fun _ _ => none

def c7Fetch : Int × Int → Option (List Nat) := fun r => if r.1 = 1 then none else some []

def c7Proj : Nat → Store → Option Store := fun _ s => some s

def c9Hash : RecordHash :=
  { address := some "0xff", name := some "Late", requestedCategories := some [],
    proposedFixedFee := some "1", publicKey := some "p", stakeAmount := some "2",
    status := some "pending", submittedAt := some "5", updatedAt := some "5",
    txHash := some "t", blockNumber := some "9" }

def c9Store : Store :=
  { records := fun k => if k = "0xff" then c9Hash else RecordHash.empty
    pending := List.replicate 1000 "0xaa" ++ ["0xff"]
    approved := []
    rejected := [] }

def c10Se : IssuerApplicationSubmittedEvent :=
  { issuer := "0xEE", name := "E", requestedCategories := [],
    proposedFixedFee := "1", publicKey := "p", stakeAmount := "2" }

def c10Sm : EventMetadata := { txHash := "t", blockNumber := 1, timestamp := 5 }

def c10Ae : IssuerApprovedEvent :=
  { caller := "0xop", issuer := "0xEE", attestationUID := "uid-x", approveFixedFee := false }

def c10Am : EventMetadata := { txHash := "t2", blockNumber := 2, timestamp := 6 }

def c10Out : IssuerOut :=
  { address := some "0xee", name := some "E", requestedCategories := [],
    proposedFixedFee := some "1", publicKey := some "p", stakeAmount := some "2",
    status := some "pending", attestationUID := none, approveFixedFee := none,
    submittedAt := some 5, updatedAt := some 5, txHash := some "t",
    blockNumber := some 1 }

/-! ## Claim C1 -/

/-- C1: projection is NOT idempotent.  Replaying the same
`IssuerApplicationSubmitted` event (same tx hash and block) prepends the
address onto the pending status index a second time, so the store after two
applications differs from the store after one; only the record hash part is
overwritten idempotently.  The handler evaluated at the failing input. -/
theorem c1_projection_not_idempotent :
    (handleApplicationSubmitted c1Ev c1Md
        (handleApplicationSubmitted c1Ev c1Md Store.empty)).pending = ["0xcc", "0xcc"]
    ∧ (handleApplicationSubmitted c1Ev c1Md Store.empty).pending = ["0xcc"]
    ∧ (handleApplicationSubmitted c1Ev c1Md
        (handleApplicationSubmitted c1Ev c1Md Store.empty)).pending
      ≠ (handleApplicationSubmitted c1Ev c1Md Store.empty).pending := by
  refine ⟨by decide, by decide, by decide⟩

/-! ## Claim C2 -/

/-- C2 as stated is false: `handleIssuerRejected` overwrites the status
unconditionally, so after submit, approve, reject of the same address the
observed status sequence is pending, approved, rejected — an approved record
moves to rejected, which is none of the three admissible sequences. -/
theorem c2_statusSequence_counterexample :
    collapse (statusTrace "0xaa" [c2Sub, c2App, c2Rej]) =
      ["pending", "approved", "rejected"]
    ∧ ¬ (collapse (statusTrace "0xaa" [c2Sub, c2App, c2Rej]) = ["pending"]
      ∨ collapse (statusTrace "0xaa" [c2Sub, c2App, c2Rej]) = ["pending", "approved"]
      ∨ collapse (statusTrace "0xaa" [c2Sub, c2App, c2Rej]) = ["pending", "rejected"]) := by
  refine ⟨by decide, by decide⟩

/-- C2 (amended): provided the events targeting each address form the shape
the contract emits — one or more submissions followed by at most one
approval-or-rejection, nothing after a finaliser — the status sequence of the
address over any such event sequence applied to the empty store is one of
{}, {pending}, {pending, approved}, {pending, rejected}; in particular no
record leaves approved or rejected. -/
theorem c2_statusSequence_of_legal (a : String) (es : List DomainEvent)
    (h : LegalFor a es) :
    collapse (statusTrace a es) = []
    ∨ collapse (statusTrace a es) = ["pending"]
    ∨ collapse (statusTrace a es) = ["pending", "approved"]
    ∨ collapse (statusTrace a es) = ["pending", "rejected"] := by
  rcases statusTrace_shape a es h with ⟨h1, _, _⟩ | ⟨⟨k, h1⟩, _, _⟩ |
    ⟨⟨k, m, h1⟩, _, _⟩ | ⟨⟨k, m, h1⟩, _, _⟩
  · exact Or.inl (by rw [h1]; rfl)
  · exact Or.inr (Or.inl (by rw [h1, collapse_replicate]))
  · exact Or.inr (Or.inr (Or.inl (by
      rw [h1, collapse_replicate_append _ _ (by decide)])))
  · exact Or.inr (Or.inr (Or.inr (by
      rw [h1, collapse_replicate_append _ _ (by decide)])))

/-- Witness for C2 (amended) at the legal sequence submit-then-approve. -/
theorem c2_statusSequence_witness :
    LegalFor "0xaa" [c2Sub, c2App]
    ∧ (collapse (statusTrace "0xaa" [c2Sub, c2App]) = []
      ∨ collapse (statusTrace "0xaa" [c2Sub, c2App]) = ["pending"]
      ∨ collapse (statusTrace "0xaa" [c2Sub, c2App]) = ["pending", "approved"]
      ∨ collapse (statusTrace "0xaa" [c2Sub, c2App]) = ["pending", "rejected"]) :=
  ⟨(by decide : shapeOk (eventsFor "0xaa" [c2Sub, c2App]) = true),
    c2_statusSequence_of_legal "0xaa" [c2Sub, c2App]
      (by decide : shapeOk (eventsFor "0xaa" [c2Sub, c2App]) = true)⟩

/-! ## Claim C3 -/

/-- C3: index exclusivity fails.  A replayed submission leaves the address
twice in the pending index, and after approve-then-reject the address is a
member of both the approved and the rejected index (`LREM` only cleans the
pending list).  The handlers evaluated at the failing inputs. -/
theorem c3_duplicate_index_entries :
    ((applyEvents Store.empty [c3Sub, c3Sub]).pending.count "0xdd") = 2
    ∧ "0xdd" ∈ (applyEvents Store.empty [c3Sub, c3App, c3Rej]).approved
    ∧ "0xdd" ∈ (applyEvents Store.empty [c3Sub, c3App, c3Rej]).rejected := by
  refine ⟨by decide, by decide, by decide⟩

/-! ## Claim C4 -/

/-- C4 as stated is false: an approval for an address with no record is not a
no-op — `handleIssuerApproved` has no existence check, so the `HSET` creates
a partial record (status approved) and the address is pushed onto the
approved index. -/
theorem c4_unknown_address_counterexample :
    (handleIssuerApproved c4AppEv c4Md Store.empty).approved = ["0xbb"]
    ∧ statusOf (handleIssuerApproved c4AppEv c4Md Store.empty) "0xbb" = some "approved"
    ∧ ((handleIssuerApproved c4AppEv c4Md Store.empty).records "0xbb").isEmpty = false := by
  refine ⟨by decide, by decide, by decide⟩

/-- C4 (amended): an approval or rejection event for an address with no
existing record does not throw, but it is not a no-op: it creates a partial
record hash holding exactly the fields of the handler's `HSET` (from an empty
hash) and prepends the address onto the approved / rejected index, while the
`LREM` on the pending index removes nothing new. -/
theorem c4_unknown_address_not_noop (ae : IssuerApprovedEvent)
    (re : IssuerRejectedEvent) (am rm : EventMetadata) (sa sr : Store)
    (ha : (sa.records (jsToLower ae.issuer)).isEmpty = true)
    (hr : (sr.records (jsToLower re.issuer)).isEmpty = true) :
    handleIssuerApproved ae am sa =
      { records := fun k => if k = jsToLower ae.issuer
          then approvedHash ae am RecordHash.empty else sa.records k
        pending := sa.pending.filter (fun x => x != jsToLower ae.issuer)
        approved := jsToLower ae.issuer :: sa.approved
        rejected := sa.rejected }
    ∧ handleIssuerRejected re rm sr =
      { records := fun k => if k = jsToLower re.issuer
          then rejectedHash rm RecordHash.empty else sr.records k
        pending := sr.pending.filter (fun x => x != jsToLower re.issuer)
        approved := sr.approved
        rejected := jsToLower re.issuer :: sr.rejected } := by
  constructor
  · show ({ records := fun k => if k = jsToLower ae.issuer
               then approvedHash ae am (sa.records k) else sa.records k
            pending := sa.pending.filter (fun x => x != jsToLower ae.issuer)
            approved := jsToLower ae.issuer :: sa.approved
            rejected := sa.rejected } : Store) = _
    congr 1
    funext k
    by_cases hk : k = jsToLower ae.issuer
    · rw [if_pos hk, if_pos hk, hk, isEmpty_eq_empty ha]
    · rw [if_neg hk, if_neg hk]
  · show ({ records := fun k => if k = jsToLower re.issuer
               then rejectedHash rm (sr.records k) else sr.records k
            pending := sr.pending.filter (fun x => x != jsToLower re.issuer)
            approved := sr.approved
            rejected := jsToLower re.issuer :: sr.rejected } : Store) = _
    congr 1
    funext k
    by_cases hk : k = jsToLower re.issuer
    · rw [if_pos hk, if_pos hk, hk, isEmpty_eq_empty hr]
    · rw [if_neg hk, if_neg hk]

/-- Witness for C4 (amended) on the empty store. -/
theorem c4_unknown_address_witness :
    (Store.empty.records (jsToLower c4AppEv.issuer)).isEmpty = true
    ∧ handleIssuerApproved c4AppEv c4Md Store.empty =
      { records := fun k => if k = jsToLower c4AppEv.issuer
          then approvedHash c4AppEv c4Md RecordHash.empty else Store.empty.records k
        pending := Store.empty.pending.filter (fun x => x != jsToLower c4AppEv.issuer)
        approved := jsToLower c4AppEv.issuer :: Store.empty.approved
        rejected := Store.empty.rejected }
    ∧ handleIssuerRejected c4RejEv c4Md Store.empty =
      { records := fun k => if k = jsToLower c4RejEv.issuer
          then rejectedHash c4Md RecordHash.empty else Store.empty.records k
        pending := Store.empty.pending.filter (fun x => x != jsToLower c4RejEv.issuer)
        approved := Store.empty.approved
        rejected := jsToLower c4RejEv.issuer :: Store.empty.rejected } := by
  have h := c4_unknown_address_not_noop c4AppEv c4RejEv c4Md c4Md Store.empty Store.empty
    (by decide) (by decide)
  exact ⟨by decide, h.1, h.2⟩

/-! ## Claim C5 -/

/-- C5 as stated is false: the progress-cursor `set` is a plain overwrite,
so after `set(10); set(5)` a `get` returns 5, not the maximum 10 — a smaller
value does regress the cursor. -/
theorem c5_cursor_counterexample :
    BackfillService.getLastProcessedBlock
      (Except.ok (BackfillService.setLastProcessedBlock 5
        (BackfillService.setLastProcessedBlock 10 none))) 1 = some 5
    ∧ (5 : Int) ≠ 10 := by
  refine ⟨by decide, by decide⟩

/-- C5 (amended): the cursor has last-write-wins semantics: after any
non-empty sequence of `set(n)` calls, `get()` returns the LAST value passed
(regardless of the maximum), and a `set` with a smaller value than the stored
cursor regresses it. -/
theorem c5_cursor_last_write_wins (ns : List Int) (c0 : Option String)
    (sb : Int) (l : Int) (h : ns.getLast? = some l) :
    BackfillService.getLastProcessedBlock
      (Except.ok (ns.foldl (fun c n => BackfillService.setLastProcessedBlock n c) c0)) sb
      = some l := by
  rw [foldl_set_getLast ns c0 l h]
  show (if intToString l = "" then some (sb - 1) else jsParseInt (intToString l)) = some l
  rw [if_neg (intToString_ne_empty l), jsParseInt_intToString]

/-- Witness for C5 (amended) at the sequence `set(10); set(5)`. -/
theorem c5_cursor_witness :
    ([(10 : Int), 5].getLast? = some 5)
    ∧ BackfillService.getLastProcessedBlock
        (Except.ok ([(10 : Int), 5].foldl
          (fun c n => BackfillService.setLastProcessedBlock n c) none)) 1 = some 5 :=
  ⟨by decide, c5_cursor_last_write_wins [10, 5] none 1 5 (by decide)⟩

/-! ## Claim C6 -/

/-- C6 as stated is false: with a single batch `[1, 5]` whose one log fails
to project, the backfill loop still advances the cursor to `5` (the per-log
failure is swallowed inside `processLogs`), so the cursor after the attempt
is not `< 1` and not unchanged. -/
theorem c6_counterexample :
    (runBackfillLoop c6Fetch c6Proj 1 5 999 ⟨Store.empty, none⟩).cursor = some "5"
    ∧ some "5" ≠ (none : Option String) := by
  refine ⟨by decide, by decide⟩

/-- C6 (amended): only a failed batch FETCH leaves the cursor (and store)
unchanged; when the fetch succeeds the cursor advances to the end of the
range even if projecting events in the range failed, because per-event
failures are caught and swallowed.  The same holds for a polling cycle,
which advances the cursor to the current height whenever its `getLogs`
succeeds. -/
theorem c6_cursor_advance_is_best_effort (L : Type)
    (fetch : Int × Int → Option (List L)) (proj : L → Store → Option Store)
    (r : Int × Int) (st : BackfillState) (fetchL : Int → Int → Option (List L))
    (lastB curB : Int) (s : Store) (cell : Option String) :
    (fetch r = none → processBatch fetch proj r st = st)
    ∧ (∀ logs, fetch r = some logs →
        (processBatch fetch proj r st).cursor = some (intToString r.2))
    ∧ (lastB < curB → fetchL (lastB + 1) curB = none →
        pollEventsCycle fetchL proj lastB curB s cell = (s, cell))
    ∧ (∀ logs, lastB < curB → fetchL (lastB + 1) curB = some logs →
        (pollEventsCycle fetchL proj lastB curB s cell).2 = some (intToString curB)) := by
  refine ⟨?_, ?_, ?_, ?_⟩
  · intro h
    unfold processBatch
    rw [h]
  · intro logs h
    unfold processBatch
    rw [h]
    rfl
  · intro hlt h
    unfold pollEventsCycle
    rw [if_pos hlt, h]
  · intro logs hlt h
    unfold pollEventsCycle
    rw [if_pos hlt, h]
    rfl

/-- Witness for C6 (amended) at concrete batches. -/
theorem c6_witness :
    processBatch c6FetchFail c6Proj (1, 5) ⟨Store.empty, none⟩ = ⟨Store.empty, none⟩
    ∧ (processBatch c6Fetch c6Proj (1, 5) ⟨Store.empty, none⟩).cursor =
        some (intToString 5)
    ∧ pollEventsCycle (fun _ _ => (none : Option (List Nat))) c6Proj 1 5 Store.empty none
        = (Store.empty, none)
    ∧ (pollEventsCycle (fun _ _ => some [0]) c6Proj 1 5 Store.empty none).2 =
        some (intToString 5) := by
  have h1 := c6_cursor_advance_is_best_effort Nat c6FetchFail c6Proj (1, 5)
    ⟨Store.empty, none⟩ (fun _ _ => none) 1 5 Store.empty none
  have h2 := c6_cursor_advance_is_best_effort Nat c6Fetch c6Proj (1, 5)
    ⟨Store.empty, none⟩ (fun _ _ => some [0]) 1 5 Store.empty none
  exact ⟨h1.1 rfl, h2.2.1 [0] rfl, h1.2.2.1 (by decide) rfl, h2.2.2.2 [0] (by decide) rfl⟩

/-! ## Claim C7 -/

/-- C7 as stated is false: the backfill loop skips a failed batch (the catch
just logs and the loop moves to the next batch), and a later successful batch
overwrites the cursor past the failed one: with batches `[1,5]` (fetch fails)
and `[6,10]` (succeeds), the final cursor is `10`, beyond the failed batch. -/
theorem c7_counterexample :
    batchRanges ((10 : Int) + 1 - 1).toNat 1 10 5 = [(1, 5), (6, 10)]
    ∧ c7Fetch (1, 5) = none
    ∧ (runBackfillLoop c7Fetch c7Proj 1 10 5 ⟨Store.empty, none⟩).cursor = some "10"
    ∧ some "10" ≠ (none : Option String) := by
  refine ⟨by decide, by decide, by decide, by decide⟩

/-- C7 (amended): a batch-level failure is caught and logged and the loop
continues with the NEXT batch instead of retrying; a failed batch never
writes the cursor, so if every batch of a run fails the store and cursor are
left unchanged and the next invocation recomputes the same starting batch —
but when a later batch succeeds, its `setLastProcessedBlock` moves the cursor
beyond the earlier failed batch. -/
theorem c7_failed_batch_skipped_not_retried (L : Type)
    (fetch : Int × Int → Option (List L)) (proj : L → Store → Option Store) :
    (∀ (ranges : List (Int × Int)) (st : BackfillState),
      (∀ r ∈ ranges, fetch r = none) → runBatches fetch proj ranges st = st)
    ∧ (∀ (r1 r2 : Int × Int) (st : BackfillState) (logs : List L),
        fetch r1 = none → fetch r2 = some logs →
        (runBatches fetch proj [r1, r2] st).cursor = some (intToString r2.2)) := by
  constructor
  · intro ranges
    induction ranges with
    | nil => intro st _; rfl
    | cons r rest ih =>
      intro st h
      show runBatches fetch proj rest (processBatch fetch proj r st) = st
      rw [show processBatch fetch proj r st = st from by
        unfold processBatch; rw [h r (List.mem_cons_self ..)]]
      exact ih st (fun r2 hr2 => h r2 (List.mem_cons_of_mem _ hr2))
  · intro r1 r2 st logs h1 h2
    show (processBatch fetch proj r2 (processBatch fetch proj r1 st)).cursor = _
    rw [show processBatch fetch proj r1 st = st from by
      unfold processBatch; rw [h1]]
    unfold processBatch
    rw [h2]
    rfl

/-- Witness for C7 (amended) at concrete batch lists. -/
theorem c7_witness :
    runBatches c6FetchFail c7Proj [(1, 5), (6, 10)] ⟨Store.empty, none⟩ =
      ⟨Store.empty, none⟩
    ∧ (runBatches c7Fetch c7Proj [(1, 5), (6, 10)] ⟨Store.empty, none⟩).cursor =
        some (intToString 10) := by
  constructor
  · exact (c7_failed_batch_skipped_not_retried Nat c6FetchFail c7Proj).1
      [(1, 5), (6, 10)] ⟨Store.empty, none⟩ (fun r _ => rfl)
  · exact (c7_failed_batch_skipped_not_retried Nat c7Fetch c7Proj).2
      (1, 5) (6, 10) ⟨Store.empty, none⟩ [] (by decide) (by decide)

/-! ## Claim C8 -/

/-- C8 as stated is false for the polling service's cursor: its `get` with
the key unset returns the CURRENT chain height (persisting it), not the
configured start block minus one, and on a Redis read failure it also falls
back to the current chain height — a value that overstates progress. -/
theorem c8_counterexample :
    BlockchainService.getLastProcessedBlock (Except.ok none) 100 = some 100
    ∧ BlockchainService.getLastProcessedBlock (Except.error ()) 100 = some 100
    ∧ (100 : Int) ≠ 1 - 1 := by
  refine ⟨rfl, rfl, by decide⟩

/-- C8 (amended): the BACKFILL cursor's `get` returns `startBlock - 1` when
the key is unset and falls back to `startBlock - 1` on a read failure; the
POLLING service's cursor `get`, in contrast, returns the current chain height
both when the key is unset and on a read failure. -/
theorem c8_cursor_defaults (sb cb : Int) :
    BackfillService.getLastProcessedBlock (Except.ok none) sb = some (sb - 1)
    ∧ BackfillService.getLastProcessedBlock (Except.error ()) sb = some (sb - 1)
    ∧ BlockchainService.getLastProcessedBlock (Except.ok none) cb = some cb
    ∧ BlockchainService.getLastProcessedBlock (Except.error ()) cb = some cb :=
  ⟨rfl, rfl, rfl, rfl⟩

/-! ## Claim C9 -/

set_option maxRecDepth 8000 in
/-- C9: false for a partition longer than 1000 entries.  `getAllIssuers`
reads each partition with `getIssuersByStatus({status, limit: 1000})` —
despite the source comment "Get all for each status" — so the address at
position 1000 of the pending index is never hydrated: its record exists and
it sits in the pending partition, yet the merged result is empty. -/
theorem c9_getAllIssuers_truncates_partitions :
    (getAllIssuers c9Store 50 0).issuers = []
    ∧ "0xff" ∈ c9Store.pending
    ∧ (c9Store.records "0xff").isEmpty = false
    ∧ getIssuer c9Store "0xff" ≠ none := by
  refine ⟨by decide, by decide, by decide, by decide⟩

/-! ## Claim C10 -/

/-- C10: the approval fields survive the store's string encoding: for a
record created by `handleApplicationSubmitted` and then approved with flag
`b` and attestation uid `u`, `getIssuer` returns `approveFixedFee = b`
(decoded from the stored "true"/"false" string) and `attestationUID = u`;
and for an issuer never touched by an approval event, `getIssuer` reports
`approveFixedFee` as undefined. -/
theorem c10_approval_fields_roundTrip :
    (∀ (se : IssuerApplicationSubmittedEvent) (sm : EventMetadata)
        (ae : IssuerApprovedEvent) (am : EventMetadata) (s : Store),
      jsToLower ae.issuer = jsToLower se.issuer →
      (getIssuer (handleIssuerApproved ae am (handleApplicationSubmitted se sm s))
          ae.issuer).map IssuerOut.approveFixedFee = some (some ae.approveFixedFee)
      ∧ (getIssuer (handleIssuerApproved ae am (handleApplicationSubmitted se sm s))
          ae.issuer).map IssuerOut.attestationUID = some (some ae.attestationUID))
    ∧ (∀ (es : List DomainEvent) (a : String) (out : IssuerOut),
        (∀ e ∈ es, e.isApproval = true → e.target ≠ jsToLower a) →
        getIssuer (applyEvents Store.empty es) a = some out →
        out.approveFixedFee = none) := by
  constructor
  · intro se sm ae am s hsame
    have hrec : (handleIssuerApproved ae am (handleApplicationSubmitted se sm s)).records
        (jsToLower ae.issuer)
        = approvedHash ae am (submittedHash se sm (s.records (jsToLower ae.issuer))) := by
      show (if jsToLower ae.issuer = jsToLower ae.issuer
        then approvedHash ae am
          ((handleApplicationSubmitted se sm s).records (jsToLower ae.issuer))
        else (handleApplicationSubmitted se sm s).records (jsToLower ae.issuer)) = _
      rw [if_pos rfl]
      congr 1
      show (if jsToLower ae.issuer = jsToLower se.issuer
        then submittedHash se sm (s.records (jsToLower ae.issuer))
        else s.records (jsToLower ae.issuer)) = _
      rw [if_pos hsame]
    have hie : (approvedHash ae am
        (submittedHash se sm (s.records (jsToLower ae.issuer)))).isEmpty = false := by
      simp [RecordHash.isEmpty, approvedHash, submittedHash]
    have hgi : getIssuer (handleIssuerApproved ae am (handleApplicationSubmitted se sm s))
        ae.issuer = some (decodeIssuer (approvedHash ae am
          (submittedHash se sm (s.records (jsToLower ae.issuer))))) := by
      unfold getIssuer
      rw [hrec, if_neg (by rw [hie]; exact Bool.false_ne_true)]
    constructor
    · rw [hgi]
      show some (decodeApproveFixedFee
        (some (if ae.approveFixedFee then "true" else "false"))) = some (some ae.approveFixedFee)
      cases ae.approveFixedFee <;> rfl
    · rw [hgi]
      rfl
  · intro es a out hnoapp hget
    have hfield : ((applyEvents Store.empty es).records (jsToLower a)).approveFixedFee = none :=
      approveFixedFee_none_of_no_approval (jsToLower a) es Store.empty rfl hnoapp
    by_cases hie : ((applyEvents Store.empty es).records (jsToLower a)).isEmpty = true
    · rw [show getIssuer (applyEvents Store.empty es) a = none from by
        unfold getIssuer; rw [if_pos hie]] at hget
      cases hget
    · have hout : some (decodeIssuer ((applyEvents Store.empty es).records (jsToLower a)))
          = some out := by
        rw [show getIssuer (applyEvents Store.empty es) a
            = some (decodeIssuer ((applyEvents Store.empty es).records (jsToLower a))) from by
          unfold getIssuer; rw [if_neg hie]] at hget
        exact hget
      rw [← Option.some.inj hout]
      show decodeApproveFixedFee
        ((applyEvents Store.empty es).records (jsToLower a)).approveFixedFee = none
      rw [hfield]
      rfl

/-- Witness for C10 at a concrete submit-then-approve and a concrete
never-approved issuer. -/
theorem c10_approval_fields_roundTrip_witness :
    ((getIssuer (handleIssuerApproved c10Ae c10Am
        (handleApplicationSubmitted c10Se c10Sm Store.empty))
        c10Ae.issuer).map IssuerOut.approveFixedFee = some (some c10Ae.approveFixedFee))
    ∧ ((getIssuer (handleIssuerApproved c10Ae c10Am
        (handleApplicationSubmitted c10Se c10Sm Store.empty))
        c10Ae.issuer).map IssuerOut.attestationUID = some (some c10Ae.attestationUID))
    ∧ c10Out.approveFixedFee = none := by
  have h1 := c10_approval_fields_roundTrip.1 c10Se c10Sm c10Ae c10Am Store.empty (by decide)
  refine ⟨h1.1, h1.2, ?_⟩
  exact c10_approval_fields_roundTrip.2 [DomainEvent.submitted c10Se c10Sm] "0xEE" c10Out
    (by decide) (by decide)

end IssuerBackend
